import Mathlib

/-!
Shallow embedding of the lofty-rs core under verification: the IFF chunk
cursor (src/iff/chunk.rs) and the APE tag save path
(src/logic/ape/tag/write.rs).  A byte stream is a list of naturals (each
below 256 in practice), a file is its content plus a cursor position, and
every fallible Rust operation returns an `Except Err` value paired with the
state it leaves behind.
-/

namespace Lofty

/-- A seekable file or stream: full byte content plus the cursor position. -/
structure FState where
  content : List Nat
  pos : Nat
  deriving DecidableEq

/-- The `LoftyError` taxonomy restricted to the variants this core produces:
unsupported container, malformed APE size, oversize serialization, short
read or seek, and invalid UTF-8. -/
inductive Err where
  | UnsupportedTag
  | Ape (msg : String)
  | TooMuchData
  | Io
  | Utf8
  deriving DecidableEq

/-- Rust `Read::read_exact` for `n` bytes: succeeds exactly when `n` bytes are
available at the cursor; a short read is an end-of-stream `Io` error.  The
content is never modified. -/
def readExact (n : Nat) (s : FState) : Except Err (List Nat) × FState :=
  if s.pos + n ≤ s.content.length then
    (.ok ((s.content.drop s.pos).take n), { s with pos := s.pos + n })
  else
    (.error .Io, s)

/-- Rust `Seek::seek(SeekFrom::Current(delta))`: fails when the resulting position
would be negative, otherwise returns the new absolute position.  Seeking past
the end of a file is legal. -/
def seekCur (delta : Int) (s : FState) : Except Err Nat × FState :=
  if (0 : Int) ≤ (s.pos : Int) + delta then
    (.ok ((s.pos : Int) + delta).toNat, { s with pos := ((s.pos : Int) + delta).toNat })
  else
    (.error .Io, s)

/-- The chunk cursor `Chunks<B>` of src/iff/chunk.rs: the current 4-byte
fourcc and the current declared size. -/
structure Chunks where
  fourcc : List Nat
  size : Nat
  deriving DecidableEq

/-- The byte-order parameter `B : ByteOrder` of `Chunks<B>`. -/
inductive ByteOrd where
  | LE
  | BE
  deriving DecidableEq

/-- Decode four bytes as an unsigned 32-bit integer in the given byte order. -/
def ordU32 (ord : ByteOrd) (bs : List Nat) : Nat :=
  match ord, bs with
  | .LE, [a, b, c, d] => a + 256 * b + 65536 * c + 16777216 * d
  | .BE, [a, b, c, d] => d + 256 * c + 65536 * b + 16777216 * a
  | _, _ => 0

/-- Constructor `Chunks::new`. -/
def Chunks.new : Chunks := { fourcc := [0, 0, 0, 0], size := 0 }

/-- Method `Chunks::next`: reads the 4-byte fourcc into the cursor state, then the
4-byte size.  The fourcc field is overwritten before the size read can fail,
so a failed size read leaves a half-updated cursor. -/
def Chunks.next (ord : ByteOrd) (c : Chunks) (s : FState) :
    Except Err Unit × Chunks × FState :=
  match readExact 4 s with
  | (.error e, s1) => (.error e, c, s1)
  | (.ok bs, s1) =>
    match readExact 4 s1 with
    | (.error e, s2) => (.error e, { c with fourcc := bs }, s2)
    | (.ok bs2, s2) => (.ok (), { fourcc := bs, size := ordU32 ord bs2 }, s2)

/-- Method `Chunks::content`: read exactly `size` bytes of chunk payload. -/
def Chunks.contentRead (c : Chunks) (s : FState) : Except Err (List Nat) × FState :=
  readExact c.size s

/-- Method `Chunks::correct_position`: chunks start on even boundaries, so skip the
single padding byte when the declared size is odd.  The padding byte is not
part of the declared size or the decoded value. -/
def Chunks.correct_position (c : Chunks) (s : FState) : Except Err Unit × FState :=
  if c.size % 2 ≠ 0 then
    match seekCur 1 s with
    | (.error e, s1) => (.error e, s1)
    | (.ok _, s1) => (.ok (), s1)
  else
    (.ok (), s)

/-- Is the byte a UTF-8 continuation byte (0x80 to 0xBF)? -/
def isCont (b : Nat) : Bool := 128 ≤ b && b < 192

/-- Strict UTF-8 decoding as performed by Rust `str::from_utf8`: rejects
continuation bytes in lead position, overlong encodings, surrogate code
points and values above 0x10FFFF.  Returns the decoded code points. -/
def utf8Decode : List Nat → Option (List Nat)
  | [] => some []
  | b :: rest =>
    if b < 128 then
      (utf8Decode rest).map (fun cs => b :: cs)
    else if b < 194 then none
    else if b < 224 then
      match rest with
      | b1 :: rest1 =>
        if isCont b1 then
          (utf8Decode rest1).map (fun cs => ((b - 192) * 64 + (b1 - 128)) :: cs)
        else none
      | [] => none
    else if b < 240 then
      match rest with
      | b1 :: b2 :: rest2 =>
        if (if b = 224 then 160 ≤ b1 && b1 < 192
            else if b = 237 then 128 ≤ b1 && b1 < 160
            else isCont b1) && isCont b2 then
          (utf8Decode rest2).map
            (fun cs => ((b - 224) * 4096 + (b1 - 128) * 64 + (b2 - 128)) :: cs)
        else none
      | _ => none
    else if b < 245 then
      match rest with
      | b1 :: b2 :: b3 :: rest3 =>
        if (if b = 240 then 144 ≤ b1 && b1 < 192
            else if b = 244 then 128 ≤ b1 && b1 < 144
            else isCont b1) && isCont b2 && isCont b3 then
          (utf8Decode rest3).map
            (fun cs =>
              ((b - 240) * 262144 + (b1 - 128) * 4096 + (b2 - 128) * 64 + (b3 - 128)) :: cs)
        else none
      | _ => none
    else none

/-- Rust `str::trim_matches('\0')`: removes ALL matching characters from both
the front and the back of the string. -/
def trimNul (l : List Nat) : List Nat :=
  ((l.dropWhile (fun b => b == 0)).reverse.dropWhile (fun b => b == 0)).reverse

/-- Method `Chunks::read_cstring`: read the chunk content, apply padding correction,
decode strictly as UTF-8, then trim NUL characters from both ends
(`str::trim_matches` trims both the front and the back). -/
def Chunks.read_cstring (c : Chunks) (s : FState) : Except Err (List Nat) × FState :=
  match Chunks.contentRead c s with
  | (.error e, s1) => (.error e, s1)
  | (.ok bytes, s1) =>
    match Chunks.correct_position c s1 with
    | (.error e, s2) => (.error e, s2)
    | (.ok _, s2) =>
      match utf8Decode bytes with
      | none => (.error .Utf8, s2)
      | some cps => (.ok (trimNul cps), s2)

/-- The 8-byte magic preamble "APETAGEX". -/
def APE_PREAMBLE : List Nat := [65, 80, 69, 84, 65, 71, 69, 88]

/-- Type `ItemValueRef`: the three value kinds of an APE item.  Text and locator
values hold the UTF-8 bytes of the Rust strings. -/
inductive ItemValueRef where
  | Binary (v : List Nat)
  | Text (v : List Nat)
  | Locator (v : List Nat)
  deriving DecidableEq

/-- One APE tag item: key bytes (the UTF-8 of the Rust key string), value,
and the per-item read-only flag. -/
structure ApeItemRef where
  key : List Nat
  value : ItemValueRef
  read_only : Bool
  deriving DecidableEq

/-- An APE tag: the whole-block read-only flag plus the ordered item
sequence.  Stands for both `ApeTag` and `ApeTagRef` of the source, whose
conversion is the identity on this data. -/
structure ApeTagRef where
  read_only : Bool
  items : List ApeItemRef
  deriving DecidableEq

/-- Little-endian encoding of the low 32 bits of a natural. -/
def u32le (n : Nat) : List Nat :=
  [n % 256, n / 256 % 256, n / 65536 % 256, n / 16777216 % 256]

/-- Little-endian encoding of the low 64 bits of a natural. -/
def u64le (n : Nat) : List Nat :=
  u32le (n % 4294967296) ++ u32le (n / 4294967296 % 4294967296)

/-- The raw bytes written for an item value. -/
def valueBytes : ItemValueRef → List Nat
  | .Binary v => v
  | .Text v => v
  | .Locator v => v

/-- Bits 1 and 2 of the item flags encode the value kind:
0 text, 1 binary, 2 locator, each shifted left by one. -/
def valueKindFlags : ItemValueRef → Nat
  | .Binary _ => 1 <<< 1
  | .Text _ => 0
  | .Locator _ => 2 <<< 1

/-- Serialization of one item, exactly as the loop body of `create_ape_tag`:
4-byte little-endian value length (truncated to 32 bits by `as u32`), 4-byte
little-endian flags (bit 0 read-only, bits 1 and 2 value kind), the key
bytes, one NUL separator, then the value bytes. -/
def serializeItem (it : ApeItemRef) : List Nat :=
  u32le (valueBytes it.value).length ++
    u32le (valueKindFlags it.value ||| (if it.read_only then 1 else 0)) ++
    it.key ++ [0] ++ valueBytes it.value

/-- The item region of the tag: the items serialized in iteration order. -/
def serialize_items (items : List ApeItemRef) : List Nat :=
  (items.map serializeItem).flatten

/-- Constant `u32::MAX`. -/
def u32MAX : Nat := 4294967295

/-- Footer flags: bit 30 (tag contains a footer) and bit 31 (tag contains a
header) set, bit 29 unset, bit 0 set when the whole block is read-only. -/
def footer_flags (ro : Bool) : Nat :=
  ((1 <<< 30) ||| (1 <<< 31)) ||| (if ro then 1 else 0)

/-- Header flags: the footer flags with bit 29 (this is the header) set. -/
def header_flags (ro : Bool) : Nat :=
  (((1 <<< 29) ||| (1 <<< 30)) ||| (1 <<< 31)) ||| (if ro then 1 else 0)

/-- The 32-byte footer: preamble, version constant 2000, total size
including the 32 footer bytes, item count, flags, 8 reserved zero bytes. -/
def ape_footer (size count : Nat) (ro : Bool) : List Nat :=
  APE_PREAMBLE ++ u32le 2000 ++ u32le (size + 32) ++ u32le count ++
    u32le (footer_flags ro) ++ u64le 0

/-- Function `create_ape_tag`: an empty item set serializes to zero bytes; otherwise
the items then the footer, with the header — the footer with its flags field
at offset 20 overwritten — spliced in front.  Fails with `TooMuchData` when
the item bytes plus the 32-byte footer exceed `u32::MAX`. -/
def create_ape_tag (tag : ApeTagRef) : Except Err (List Nat) :=
  if tag.items.isEmpty then .ok []
  else
    let body := serialize_items tag.items
    let size := body.length
    if size + 32 > u32MAX then .error .TooMuchData
    else
      let footer := ape_footer size tag.items.length tag.read_only
      let header := footer.take 20 ++ u32le (header_flags tag.read_only) ++ footer.drop 24
      .ok (header ++ body ++ footer)

/-- A one-item tag whose single binary value is 2^32 bytes long, so that the
serialized items overflow the 32-bit size field. -/
def bigTag : ApeTagRef :=
  ⟨false, [⟨[65], .Binary (List.replicate 4294967296 0), false⟩]⟩

/-- A small one-item tag: key "A", text value "x", not read-only. -/
def smallTag : ApeTagRef := ⟨false, [⟨[65], .Text [120], false⟩]⟩

/-- The serializer output for `smallTag`, written out byte by byte. -/
def smallTagBytes : List Nat :=
  [65, 80, 69, 84, 65, 71, 69, 88, 208, 7, 0, 0, 43, 0, 0, 0, 1, 0, 0, 0,
    0, 0, 0, 224, 0, 0, 0, 0, 0, 0, 0, 0] ++
  [1, 0, 0, 0, 0, 0, 0, 0, 65, 0, 120] ++
  [65, 80, 69, 84, 65, 71, 69, 88, 208, 7, 0, 0, 43, 0, 0, 0, 1, 0, 0, 0,
    0, 0, 0, 192, 0, 0, 0, 0, 0, 0, 0, 0]

/-- The file types relevant to the save gate: only APE and MP3 pass. -/
inductive FileType where
  | APE
  | MP3
  | Other
  deriving DecidableEq

/-- Rust `usize::checked_sub`. -/
def checked_sub (a b : Nat) : Option Nat :=
  if b ≤ a then some (a - b) else none

/-- The message of the malformed-size error of write.rs line 87. -/
def invalidSizeMsg : String := "File has a tag with an invalid size"

/-- The sanity check locating the standard trailing tag: its start offset is
the tag-end offset minus the declared size; on underflow the save fails with
the malformed-size error instead of wrapping. -/
def trailing_range (tag_end size : Nat) : Except Err (Nat × Nat) :=
  match checked_sub tag_end size with
  | some st => .ok (st, st + size)
  | none => .error (.Ape invalidSizeMsg)

/-- Rust `Vec::splice(a..b, replacement)`: replace the byte range with new bytes. -/
def splice (a b : Nat) (repl l : List Nat) : List Nat :=
  l.take a ++ repl ++ l.drop b

/-- Rust `Vec::drain(a..b)`: remove the byte range. -/
def drain (a b : Nat) (l : List Nat) : List Nat :=
  l.take a ++ l.drop b

/-- Statement `existing.items.retain(|i| i.read_only)`. -/
def retain_read_only (t : ApeTagRef) : ApeTagRef :=
  { t with items := t.items.filter (fun i => i.read_only) }

/-- The read-only accumulation performed for each located block: keep only
the read-only items and, when any remain, OVERWRITE the accumulator with
them (`read_only = Some(existing)`); when none remain keep the accumulator. -/
def override_accum (acc : Option ApeTagRef) (existing : ApeTagRef) : Option ApeTagRef :=
  let e := retain_read_only existing
  if e.items.isEmpty then acc else some e

/-- The tag actually serialized by the save: the located read-only set when
one exists — the caller tag is then discarded entirely — else the caller's
tag (write.rs lines 92 to 96). -/
def select_final (ro : Option ApeTagRef) (caller : ApeTagRef) : ApeTagRef :=
  match ro with
  | some t => t
  | none => caller

/-- Sequencing of fallible stateful steps: the Rust question-mark operator. -/
def andThen {α β : Type} (x : Except Err α × FState)
    (f : α → FState → Except Err β × FState) : Except Err β × FState :=
  match x with
  | (.error e, s) => (.error e, s)
  | (.ok a, s) => f a s

/-- Lines 39 to 55 of write.rs: when the 8 bytes just read are the APE
preamble, a nonstandard leading tag sits here: rewind 8 to learn its start
offset, seek forward 8 again, parse the block (collaborator), keep its
read-only items and record its absolute range `start .. start + size`;
otherwise only rewind the 8 bytes. -/
def leading_step (readApeTag : Bool → FState → Except Err (ApeTagRef × Nat) × FState)
    (pre : List Nat) (s : FState) :
    Except Err (Option ApeTagRef × Bool × Nat × Nat) × FState :=
  if pre = APE_PREAMBLE then
    andThen (seekCur (-8) s) fun start s =>
    andThen (seekCur 8 s) fun _ s =>
    andThen (readApeTag false s) fun es s =>
    (.ok (override_accum none es.1, true, start, start + es.2), s)
  else
    andThen (seekCur (-8) s) fun _ s => (.ok (none, false, 0, 0), s)

/-- Lines 64 to 89 of write.rs: seek back 32 bytes from the fallback point
and re-read the preamble; on a match the standard trailing tag ends here:
the tag-end offset is the current position plus 24, the block is parsed
(collaborator), its read-only items overwrite the accumulator when nonempty,
and the range is located through the underflow sanity check. -/
def trailing_step (readApeTag : Bool → FState → Except Err (ApeTagRef × Nat) × FState)
    (acc : Option ApeTagRef) (s : FState) :
    Except Err (Option ApeTagRef × Option (Nat × Nat)) × FState :=
  andThen (seekCur (-32) s) fun _ s =>
  andThen (readExact 8 s) fun pre s =>
  if pre = APE_PREAMBLE then
    let start := s.pos + 24
    andThen (readApeTag true s) fun es s =>
    match trailing_range start es.2 with
    | .ok r => (.ok (override_accum acc es.1, some r), s)
    | .error e => (.error e, s)
  else
    (.ok (acc, none), s)

/-- Function `write_to` of src/logic/ape/tag/write.rs.  The collaborators living
outside the sampled sources are parameters modelled from their spec
contracts (§6): the file-type probe, the leading ID3v2 skip, the two
trailing legacy skips (ID3v1, Lyrics3v2) and the APE tag parser; each acts
on the stream and reports through its return value and the cursor.  After
the gate and the two location passes, the selected tag is serialized, the
whole file is buffered, the trailing range is replaced (or the new bytes are
inserted at the fallback point), the leading range is removed at its
original offsets, and the buffer is written back wholesale. -/
def writeTo (probe : FState → Except Err (Option FileType) × FState)
    (findId3v2 findId3v1 findLyrics3v2 : FState → Except Err Unit × FState)
    (readApeTag : Bool → FState → Except Err (ApeTagRef × Nat) × FState)
    (tag : ApeTagRef) (s : FState) : Except Err Unit × FState :=
  andThen (probe s) fun ft s =>
  if ft = some FileType.APE ∨ ft = some FileType.MP3 then
    andThen (findId3v2 s) fun _ s =>
    andThen (readExact 8 s) fun pre s =>
    andThen (leading_step readApeTag pre s) fun lr s =>
    andThen (findId3v1 s) fun _ s =>
    andThen (findLyrics3v2 s) fun _ s =>
    let ape_position := s.pos
    andThen (trailing_step readApeTag lr.1 s) fun tr s =>
    match create_ape_tag (select_final tr.1 tag) with
    | .error e => (.error e, s)
    | .ok tagBytes =>
      let file_bytes := s.content
      let fb1 := match tr.2 with
        | some r => splice r.1 r.2 tagBytes file_bytes
        | none => splice ape_position ape_position tagBytes file_bytes
      let fb2 := if lr.2.1 then drain lr.2.2.1 lr.2.2.2 fb1 else fb1
      (.ok (), { content := fb2, pos := fb2.length })
  else
    (.error Err.UnsupportedTag, s)

/-- The merge rule exactly as the SPEC states it (§4.3): every caller item
except those whose key matches an override key, plus every override item
verbatim. -/
def merge_final_spec (caller overrides : List ApeItemRef) : List ApeItemRef :=
  caller.filter (fun c => !(overrides.any (fun o => o.key == c.key))) ++ overrides

/-- The override rule exactly as the SPEC states it (§4.2 step 5): the union
of the read-only items of every located block. -/
def override_union_spec (blocks : List ApeTagRef) : List ApeItemRef :=
  (blocks.map (fun t => (retain_read_only t).items)).flatten

/-- Modelled from the spec: the file-type probe (§6) classifies the stream;
this probe reports a tag-capable APE stream and leaves the cursor at the
start of the search region. -/
def probe_ape (s : FState) : Except Err (Option FileType) × FState :=
  (.ok (some .APE), { s with pos := 0 })

/-- Modelled from the spec: a probe classifying the stream as a type without
tag support, making the gate reject the save. -/
def probe_other (s : FState) : Except Err (Option FileType) × FState :=
  (.ok (some .Other), { s with pos := 0 })

/-- Modelled from the spec: a skip collaborator whose block is absent
reports nothing and does not move. -/
def skip_absent (s : FState) : Except Err Unit × FState := (.ok (), s)

/-- Modelled from the spec: the trailing legacy skips leave the cursor at
the fallback insertion point, nearest end-of-file when no legacy blocks are
present; absent here, so it seeks to end-of-file. -/
def id3v1_absent_at_eof (s : FState) : Except Err Unit × FState :=
  (.ok (), { s with pos := s.content.length })

/-- Disk item "B": binary value, flagged read-only. -/
def itemB : ApeItemRef := ⟨[66], .Binary [1, 2], true⟩

/-- The trailing disk tag holding only `itemB`. -/
def tagB : ApeTagRef := ⟨false, [itemB]⟩

/-- The on-disk bytes of `tagB` (76 bytes: header, one 12-byte item, footer). -/
def tagBbytes : List Nat :=
  match create_ape_tag tagB with
  | .ok v => v
  | .error _ => []

/-- A file whose 3 audio bytes are followed by trailing tag `tagB`. -/
def fileB : FState := ⟨[10, 20, 30] ++ tagBbytes, 0⟩

/-- Modelled from the spec: the APE parser for the trailing-only scenario:
it reports the parsed block `tagB` with its total size 76 and leaves the
cursor after the block. -/
def readApe_trailB (_b : Bool) (s : FState) : Except Err (ApeTagRef × Nat) × FState :=
  (.ok (tagB, 76), { s with pos := s.content.length })

/-- The caller tag: one item with key "X", not read-only, matching no
override key. -/
def callerX : ApeTagRef := ⟨false, [⟨[88], .Text [120], false⟩]⟩

/-- The final item set claim C1 predicts for the trailing-only scenario. -/
def c1_claim_items : List ApeItemRef :=
  merge_final_spec callerX.items (override_union_spec [tagB])

/-- The serialization of the item set claim C1 predicts. -/
def c1_claim_bytes : List Nat :=
  match create_ape_tag ⟨false, c1_claim_items⟩ with
  | .ok v => v
  | .error _ => []

/-- Leading disk item "A": binary value, flagged read-only. -/
def itemA : ApeItemRef := ⟨[65], .Binary [7, 8], true⟩

/-- The leading (nonstandard) disk tag holding only `itemA`. -/
def tagA : ApeTagRef := ⟨false, [itemA]⟩

/-- The on-disk bytes of `tagA` (76 bytes). -/
def tagAbytes : List Nat :=
  match create_ape_tag tagA with
  | .ok v => v
  | .error _ => []

/-- A file with a leading tag `tagA`, 3 audio bytes, and a trailing tag
`tagB`: both located blocks carry read-only items. -/
def fileAB : FState := ⟨tagAbytes ++ [9, 9, 9] ++ tagBbytes, 0⟩

/-- Modelled from the spec: the APE parser for the dual-placement scenario:
the leading parse (called past the 8-byte preamble) reports `tagA` with
size 76 and consumes the rest of the 76-byte block; the trailing parse
reports `tagB` with size 76 and leaves the cursor after the block. -/
def readApe_both (b : Bool) (s : FState) : Except Err (ApeTagRef × Nat) × FState :=
  if b then (.ok (tagB, 76), { s with pos := s.content.length })
  else (.ok (tagA, 76), { s with pos := s.pos + 68 })

/-- The union override set claim C2 predicts for the dual-placement file. -/
def c2_union_items : List ApeItemRef := override_union_spec [tagA, tagB]

/-- The serialization of the union override set claim C2 predicts. -/
def c2_union_bytes : List Nat :=
  match create_ape_tag ⟨false, c2_union_items⟩ with
  | .ok v => v
  | .error _ => []

/-- Disk item "C" that is NOT read-only. -/
def itemC : ApeItemRef := ⟨[67], .Binary [1, 2], false⟩

/-- A trailing disk tag with no read-only items. -/
def tagC : ApeTagRef := ⟨false, [itemC]⟩

/-- The on-disk bytes of `tagC` (76 bytes). -/
def tagCbytes : List Nat :=
  match create_ape_tag tagC with
  | .ok v => v
  | .error _ => []

/-- A file whose 3 audio bytes are followed by trailing tag `tagC`. -/
def fileC : FState := ⟨[10, 20, 30] ++ tagCbytes, 0⟩

/-- Modelled from the spec: the APE parser for the removal scenario: it
reports the parsed block `tagC` (no read-only items) with its total size 76. -/
def readApe_trailC (_b : Bool) (s : FState) : Except Err (ApeTagRef × Nat) × FState :=
  (.ok (tagC, 76), { s with pos := s.content.length })

/-- Claim C10: `Chunks::next` is not atomic on failure.  On a stream holding
at least 4 but fewer than 8 bytes past the cursor, the call fails with an
end-of-stream condition after the 4-byte fourcc field of the cursor has
already been overwritten with the newly read bytes, while the size field
keeps its previous value. -/
theorem chunks_next_not_atomic (ord : ByteOrd) (c : Chunks) (s : FState)
    (h4 : 4 ≤ s.content.length - s.pos) (h8 : s.content.length - s.pos < 8)
    (hp : s.pos ≤ s.content.length) :
    (Chunks.next ord c s).1 = .error .Io ∧
    (Chunks.next ord c s).2.1.fourcc = (s.content.drop s.pos).take 4 ∧
    (Chunks.next ord c s).2.1.size = c.size := by
  have hA : s.pos + 4 ≤ s.content.length := by omega
  have hB : ¬ (s.pos + 4 + 4 ≤ s.content.length) := by omega
  simp [Chunks.next, readExact, hA, hB]

/-- Witness for C10 at a concrete five-byte stream. -/
theorem chunks_next_not_atomic_witness :
    (Chunks.next .LE ⟨[9, 9, 9, 9], 77⟩ ⟨[1, 2, 3, 4, 5], 0⟩).1 = .error .Io ∧
    (Chunks.next .LE ⟨[9, 9, 9, 9], 77⟩ ⟨[1, 2, 3, 4, 5], 0⟩).2.1.fourcc =
      (([1, 2, 3, 4, 5] : List Nat).drop 0).take 4 ∧
    (Chunks.next .LE ⟨[9, 9, 9, 9], 77⟩ ⟨[1, 2, 3, 4, 5], 0⟩).2.1.size = 77 :=
  chunks_next_not_atomic .LE ⟨[9, 9, 9, 9], 77⟩ ⟨[1, 2, 3, 4, 5], 0⟩
    (by decide) (by decide) (by decide)

/-- Claim C7 counterexample: the claim asserts that only TRAILING NUL
characters are stripped, so an input decoding to a string that begins with a
NUL and has no trailing NUL should come back unchanged.  On the two-byte
chunk content 0x00 0x41 the code returns "A": the leading NUL is stripped as
well, because `str::trim_matches` trims both ends. -/
theorem read_cstring_leading_nul_counterexample :
    (Chunks.read_cstring ⟨[0, 0, 0, 0], 2⟩ ⟨[0, 65], 0⟩).1 = .ok [65] ∧
    ([65] : List Nat) ≠ [0, 65] := by
  exact ⟨rfl, by decide⟩

/-- Claim C7 (amended): for a chunk and a stream holding at least the chunk's
declared size in bytes past the cursor, `read_cstring` reads exactly `size`
bytes, applies padding correction to the cursor, fails on invalid UTF-8, and
on valid UTF-8 returns the decoded string with NUL characters stripped from
BOTH ends — leading NULs are removed too, not preserved. -/
theorem read_cstring_spec (c : Chunks) (s : FState)
    (hin : s.pos + c.size ≤ s.content.length) :
    (∀ cps, utf8Decode ((s.content.drop s.pos).take c.size) = some cps →
        (Chunks.read_cstring c s).1 = .ok (trimNul cps)) ∧
    (utf8Decode ((s.content.drop s.pos).take c.size) = none →
        (Chunks.read_cstring c s).1 = .error .Utf8) ∧
    (Chunks.read_cstring c s).2.pos = s.pos + c.size + c.size % 2 ∧
    (Chunks.read_cstring c s).2.content = s.content := by
  have hnn : (0 : Int) ≤ (s.pos : Int) + (c.size : Int) + 1 := by positivity
  have htn : ((s.pos : Int) + (c.size : Int) + 1).toNat = s.pos + c.size + 1 := by omega
  rcases Nat.mod_two_eq_zero_or_one c.size with h | h <;>
    simp [Chunks.read_cstring, Chunks.contentRead, Chunks.correct_position, readExact,
      seekCur, hin, h, hnn, htn] <;>
    rcases utf8Decode ((s.content.drop s.pos).take c.size) with _ | cps <;> simp

/-- Witness for the amended C7 on concrete data: the three-byte content
0x41 0x00 0x42 decodes, its interior NUL is kept, and the odd size moves the
cursor one extra padding byte. -/
theorem read_cstring_spec_witness :
    (Chunks.read_cstring ⟨[0, 0, 0, 0], 3⟩ ⟨[65, 0, 66, 1], 0⟩).1 =
      .ok (trimNul [65, 0, 66]) ∧
    (Chunks.read_cstring ⟨[0, 0, 0, 0], 3⟩ ⟨[65, 0, 66, 1], 0⟩).2.pos = 0 + 3 + 3 % 2 :=
  ⟨(read_cstring_spec ⟨[0, 0, 0, 0], 3⟩ ⟨[65, 0, 66, 1], 0⟩ (by decide)).1
      [65, 0, 66] (by decide),
   (read_cstring_spec ⟨[0, 0, 0, 0], 3⟩ ⟨[65, 0, 66, 1], 0⟩ (by decide)).2.2.1⟩

theorem header_flags_eq (ro : Bool) :
    header_flags ro = footer_flags ro ||| (1 <<< 29) := by
  cases ro <;> decide

theorem ape_footer_length (size count : Nat) (ro : Bool) :
    (ape_footer size count ro).length = 32 := by
  simp [ape_footer, APE_PREAMBLE, u32le, u64le]

theorem isEmpty_false_of_ne_nil {α : Type} {l : List α} (h : l ≠ []) :
    l.isEmpty = false := by
  cases l with
  | nil => exact absurd rfl h
  | cons a t => rfl

theorem u32le_length (n : Nat) : (u32le n).length = 4 := rfl

theorem take_drop_ends (body F G : List Nat) (hF : F.length = 32) (hG : G.length = 32) :
    (G ++ body ++ F).take 32 = G ∧
    (G ++ body ++ F).drop ((G ++ body ++ F).length - 32) = F := by
  constructor
  · rw [List.append_assoc, ← hG, List.take_left]
  · have h1 : (G ++ body ++ F).length - 32 = (G ++ body).length := by
      simp only [List.length_append, hF, hG]
      omega
    rw [h1, List.drop_left]

/-- Claim C5: for a nonempty item set, when the serialized item bytes plus
the 32-byte footer exceed `u32::MAX` the serializer fails with
`TooMuchData`; for any item set under that bound no failure occurs at this
step. -/
theorem create_ape_tag_overflow (tag : ApeTagRef) (hne : tag.items ≠ []) :
    ((serialize_items tag.items).length + 32 > u32MAX →
        create_ape_tag tag = .error .TooMuchData) ∧
    ((serialize_items tag.items).length + 32 ≤ u32MAX →
        ∃ out, create_ape_tag tag = .ok out) := by
  have hne2 : tag.items.isEmpty = false := isEmpty_false_of_ne_nil hne
  constructor
  · intro h
    rw [create_ape_tag, if_neg (by simp [hne2]), if_pos h]
  · intro h
    have h2 : ¬ ((serialize_items tag.items).length + 32 > u32MAX) := by omega
    exact ⟨_, by rw [create_ape_tag, if_neg (by simp [hne2]), if_neg h2]⟩

/-- Witness for C5: a tag holding a 2^32-byte binary value is rejected with
`TooMuchData`, while the small one-item tag stays under the bound and
serializes. -/
theorem create_ape_tag_overflow_witness :
    bigTag.items ≠ [] ∧
    (serialize_items bigTag.items).length + 32 > u32MAX ∧
    create_ape_tag bigTag = .error .TooMuchData ∧
    (serialize_items smallTag.items).length + 32 ≤ u32MAX ∧
    (∃ out, create_ape_tag smallTag = .ok out) := by
  have hne : bigTag.items ≠ [] := by decide
  have hlen : (serialize_items bigTag.items).length = 4294967306 := by
    simp only [bigTag, serialize_items, serializeItem, valueBytes, valueKindFlags,
      u32le, List.map_cons, List.map_nil, List.flatten_cons, List.flatten_nil,
      List.length_append, List.length_replicate, List.append_nil,
      List.length_cons, List.length_nil]
  have hgt : (serialize_items bigTag.items).length + 32 > u32MAX := by
    rw [hlen]; decide
  refine ⟨hne, hgt, (create_ape_tag_overflow bigTag hne).1 hgt, by decide, ?_⟩
  exact (create_ape_tag_overflow smallTag (by simp [smallTag])).2 (by decide)

/-- Claim C6: for a nonempty item set that serializes successfully, the
output begins with a 32-byte header and ends with a 32-byte footer; the
header is byte-identical to the footer except that the 4-byte flags field at
offset 20 additionally has bit 29 set; bits 30 and 31 are set in both flag
values, bit 29 is unset in the footer flags, and bit 0 of both equals the
whole-block read-only flag. -/
theorem create_ape_tag_header_footer (tag : ApeTagRef) (out : List Nat)
    (hne : tag.items ≠ []) (hok : create_ape_tag tag = .ok out) :
    out.take 32 = (out.drop (out.length - 32)).take 20 ++
      u32le (footer_flags tag.read_only ||| (1 <<< 29)) ++
      (out.drop (out.length - 32)).drop 24 ∧
    ((out.drop (out.length - 32)).drop 20).take 4 = u32le (footer_flags tag.read_only) ∧
    Nat.testBit (footer_flags tag.read_only) 29 = false ∧
    Nat.testBit (footer_flags tag.read_only ||| (1 <<< 29)) 29 = true ∧
    Nat.testBit (footer_flags tag.read_only) 30 = true ∧
    Nat.testBit (footer_flags tag.read_only ||| (1 <<< 29)) 30 = true ∧
    Nat.testBit (footer_flags tag.read_only) 31 = true ∧
    Nat.testBit (footer_flags tag.read_only ||| (1 <<< 29)) 31 = true ∧
    Nat.testBit (footer_flags tag.read_only) 0 = tag.read_only ∧
    Nat.testBit (footer_flags tag.read_only ||| (1 <<< 29)) 0 = tag.read_only := by
  have hne2 : tag.items.isEmpty = false := isEmpty_false_of_ne_nil hne
  have hsz : ¬ ((serialize_items tag.items).length + 32 > u32MAX) := by
    by_contra h
    rw [create_ape_tag, if_neg (by simp [hne2]), if_pos h] at hok
    exact Except.noConfusion hok
  rw [create_ape_tag, if_neg (by simp [hne2]), if_neg hsz] at hok
  simp only [Except.ok.injEq] at hok
  subst hok
  obtain ⟨ht, hd⟩ := take_drop_ends (serialize_items tag.items)
    (ape_footer (serialize_items tag.items).length tag.items.length tag.read_only)
    ((ape_footer (serialize_items tag.items).length tag.items.length tag.read_only).take 20 ++
      u32le (header_flags tag.read_only) ++
      (ape_footer (serialize_items tag.items).length tag.items.length tag.read_only).drop 24)
    (ape_footer_length _ _ _)
    (by simp only [List.length_append, List.length_take, List.length_drop,
          ape_footer_length, u32le_length]; omega)
  rw [ht, hd]
  have hb : Nat.testBit (footer_flags tag.read_only) 29 = false ∧
      Nat.testBit (footer_flags tag.read_only ||| (1 <<< 29)) 29 = true ∧
      Nat.testBit (footer_flags tag.read_only) 30 = true ∧
      Nat.testBit (footer_flags tag.read_only ||| (1 <<< 29)) 30 = true ∧
      Nat.testBit (footer_flags tag.read_only) 31 = true ∧
      Nat.testBit (footer_flags tag.read_only ||| (1 <<< 29)) 31 = true ∧
      Nat.testBit (footer_flags tag.read_only) 0 = tag.read_only ∧
      Nat.testBit (footer_flags tag.read_only ||| (1 <<< 29)) 0 = tag.read_only := by
    cases tag.read_only <;> exact (by decide)
  exact ⟨by rw [← header_flags_eq], by rfl, hb⟩

/-- Witness for C6 at the small one-item tag and its explicit output bytes. -/
theorem create_ape_tag_header_footer_witness :
    (smallTag.items ≠ [] ∧ create_ape_tag smallTag = .ok smallTagBytes) ∧
    smallTagBytes.take 32 = (smallTagBytes.drop (smallTagBytes.length - 32)).take 20 ++
      u32le (footer_flags smallTag.read_only ||| (1 <<< 29)) ++
      (smallTagBytes.drop (smallTagBytes.length - 32)).drop 24 :=
  ⟨⟨by simp [smallTag], by rfl⟩,
   (create_ape_tag_header_footer smallTag smallTagBytes (by simp [smallTag]) (by rfl)).1⟩

/-- Claim C1 counterexample: on a file whose trailing tag holds the
read-only item B, with a caller tag holding only item X whose key matches no
override key, the claim predicts a final item set containing X; the code
discards the caller tag entirely and rewrites only the read-only set, so the
final file content differs from the claim's predicted rewrite. -/
theorem write_to_merge_counterexample :
    (writeTo probe_ape skip_absent id3v1_absent_at_eof skip_absent readApe_trailB
        callerX fileB).1 = .ok () ∧
    (writeTo probe_ape skip_absent id3v1_absent_at_eof skip_absent readApe_trailB
        callerX fileB).2.content = [10, 20, 30] ++ tagBbytes ∧
    c1_claim_items = [⟨[88], .Text [120], false⟩, itemB] ∧
    (writeTo probe_ape skip_absent id3v1_absent_at_eof skip_absent readApe_trailB
        callerX fileB).2.content ≠ splice 3 79 c1_claim_bytes fileB.content := by
  exact ⟨rfl, by decide, by decide, by decide⟩

/-- Claim C1 (amended): when a located override set exists the final item
set is exactly that override set — every caller item is dropped, even one
whose key matches no override — and when none exists the caller's item set
is used unchanged; a read-only item of the authoritative block therefore
survives a save that omits it or supplies another value for its key. -/
theorem select_final_spec (hdr ftr caller : ApeTagRef) :
    (∀ i ∈ ftr.items, i.read_only = true →
        i ∈ (select_final (override_accum (override_accum none hdr) ftr) caller).items) ∧
    (∀ t, override_accum (override_accum none hdr) ftr = some t →
        select_final (override_accum (override_accum none hdr) ftr) caller = t) ∧
    select_final none caller = caller := by
  refine ⟨?_, ?_, rfl⟩
  · intro i hi hro
    have hmem : i ∈ (retain_read_only ftr).items := by
      simp only [retain_read_only, List.mem_filter]
      exact ⟨hi, hro⟩
    have hne : (retain_read_only ftr).items.isEmpty = false :=
      isEmpty_false_of_ne_nil (List.ne_nil_of_mem hmem)
    simp only [override_accum, hne, Bool.false_eq_true, if_false, select_final]
    exact hmem
  · intro t ht
    rw [ht]
    rfl

/-- Witness for the amended C1: the read-only trailing item B is in the
final item set even though the caller tag does not carry it. -/
theorem select_final_spec_witness :
    itemB ∈ (select_final (override_accum (override_accum none tagA) tagB) callerX).items :=
  (select_final_spec tagA tagB callerX).1 itemB (by decide) (by decide)

set_option maxRecDepth 4096 in
/-- Claim C2 counterexample: with a leading block whose read-only items are
[A] and a trailing block whose read-only items are [B], the claim predicts
the override set [A, B]; the code's second `read_only = Some(existing)`
overwrites the first, the override set is [B] alone, and the rewritten file
differs from a rewrite with the union. -/
theorem write_to_union_counterexample :
    (writeTo probe_ape skip_absent id3v1_absent_at_eof skip_absent readApe_both
        callerX fileAB).1 = .ok () ∧
    (writeTo probe_ape skip_absent id3v1_absent_at_eof skip_absent readApe_both
        callerX fileAB).2.content = [9, 9, 9] ++ tagBbytes ∧
    override_accum (override_accum none tagA) tagB = some (retain_read_only tagB) ∧
    c2_union_items = [itemA, itemB] ∧
    (retain_read_only tagB).items ≠ c2_union_items ∧
    (writeTo probe_ape skip_absent id3v1_absent_at_eof skip_absent readApe_both
        callerX fileAB).2.content ≠ drain 0 76 (splice 79 155 c2_union_bytes fileAB.content) := by
  exact ⟨rfl, by decide, by decide, by decide, by decide, by decide⟩

/-- Claim C2 (amended): the authoritative override set is not the union of
the located blocks' read-only items: each located block OVERWRITES the
accumulator when its read-only set is nonempty, so the override set is the
read-only items of the last located block having any — the trailing block's
when nonempty, else the leading block's. -/
theorem override_accum_last_wins (hdr ftr : ApeTagRef) :
    ((retain_read_only ftr).items.isEmpty = false →
        override_accum (override_accum none hdr) ftr = some (retain_read_only ftr)) ∧
    ((retain_read_only ftr).items.isEmpty = true →
        override_accum (override_accum none hdr) ftr = override_accum none hdr) := by
  constructor <;> intro h <;> simp [override_accum, h]

/-- Witness for the amended C2: with read-only items in both blocks the
override set is exactly the trailing block's read-only set. -/
theorem override_accum_last_wins_witness :
    override_accum (override_accum none tagA) tagB = some (retain_read_only tagB) :=
  (override_accum_last_wins tagA tagB).1 (by decide)

/-- Claim C4: serializing an empty item set yields exactly zero bytes (no
header, no footer), and saving that empty result over a file whose trailing
tag range was located replaces the range with nothing: the end-to-end save
of an empty caller tag over `fileC` (3 audio bytes followed by a 76-byte
trailing tag with no read-only items) leaves exactly the 3 audio bytes. -/
theorem empty_tag_zero_bytes_removal :
    (∀ b : Bool, create_ape_tag ⟨b, []⟩ = .ok []) ∧
    (writeTo probe_ape skip_absent id3v1_absent_at_eof skip_absent readApe_trailC
        ⟨false, []⟩ fileC).1 = .ok () ∧
    (writeTo probe_ape skip_absent id3v1_absent_at_eof skip_absent readApe_trailC
        ⟨false, []⟩ fileC).2.content = [10, 20, 30] := by
  exact ⟨fun b => rfl, rfl, by decide⟩

/-- Claim C8: during trailing location, a declared size exceeding the
tag-end offset makes the checked subtraction underflow and the save fails
with the malformed-size error instead of wrapping; a size within bounds
locates the end-exclusive range whose length is exactly the declared size. -/
theorem trailing_range_spec (tag_end size : Nat) :
    (tag_end < size → trailing_range tag_end size = .error (.Ape invalidSizeMsg)) ∧
    (size ≤ tag_end →
        trailing_range tag_end size = .ok (tag_end - size, tag_end) ∧
        tag_end - (tag_end - size) = size) := by
  constructor
  · intro h
    have h2 : ¬ (size ≤ tag_end) := by omega
    simp [trailing_range, checked_sub, h2]
  · intro h
    have h3 : tag_end - size + size = tag_end := by omega
    refine ⟨by simp [trailing_range, checked_sub, h, h3], by omega⟩

/-- Witness for C8: size 5 past tag-end 3 fails; size 4 within tag-end 10
locates the range 6 to 10. -/
theorem trailing_range_spec_witness :
    trailing_range 3 5 = .error (.Ape invalidSizeMsg) ∧
    trailing_range 10 4 = .ok (6, 10) :=
  ⟨(trailing_range_spec 3 5).1 (by decide), ((trailing_range_spec 10 4).2 (by decide)).1⟩

theorem readExact_content (n : Nat) (s : FState) :
    ((readExact n s).2).content = s.content := by
  unfold readExact
  split <;> rfl

theorem seekCur_content (d : Int) (s : FState) :
    ((seekCur d s).2).content = s.content := by
  unfold seekCur
  split <;> rfl

theorem andThen_pres {α β : Type} {x : Except Err α × FState}
    {f : α → FState → Except Err β × FState} {C : List Nat}
    (hx : x.2.content = C)
    (hf : ∀ a s2, s2.content = C → ((f a s2).2).content = C) :
    ((andThen x f).2).content = C := by
  rcases x with ⟨r, s2⟩
  cases r with
  | error e => exact hx
  | ok a => exact hf a s2 hx

theorem andThen_err {α β : Type} {x : Except Err α × FState}
    {f : α → FState → Except Err β × FState} {C : List Nat}
    (hx : x.2.content = C)
    (hf : ∀ a s2, s2.content = C →
        ∀ e, (f a s2).1 = .error e → ((f a s2).2).content = C) :
    ∀ e, (andThen x f).1 = .error e → ((andThen x f).2).content = C := by
  rcases x with ⟨r, s2⟩
  cases r with
  | error e0 => intro e h; exact hx
  | ok a => intro e h; exact hf a s2 hx e h

theorem leading_pres (ra : Bool → FState → Except Err (ApeTagRef × Nat) × FState)
    (HR : ∀ b u, ((ra b u).2).content = u.content)
    (pre : List Nat) (s : FState) :
    ((leading_step ra pre s).2).content = s.content := by
  unfold leading_step
  split
  · apply andThen_pres (seekCur_content _ _)
    intro start s2 h2
    apply andThen_pres (by rw [seekCur_content]; exact h2)
    intro _ s3 h3
    apply andThen_pres (by rw [HR]; exact h3)
    intro es s4 h4
    exact h4
  · apply andThen_pres (seekCur_content _ _)
    intro _ s2 h2
    exact h2

theorem trailing_pres (ra : Bool → FState → Except Err (ApeTagRef × Nat) × FState)
    (HR : ∀ b u, ((ra b u).2).content = u.content)
    (acc : Option ApeTagRef) (s : FState) :
    ((trailing_step ra acc s).2).content = s.content := by
  unfold trailing_step
  apply andThen_pres (seekCur_content _ _)
  intro _ s2 h2
  apply andThen_pres (by rw [readExact_content]; exact h2)
  intro pre s3 h3
  split
  · apply andThen_pres (by rw [HR]; exact h3)
    intro es s4 h4
    split <;> exact h4
  · exact h3

/-- Claim C3: every failure of the save aborts before any byte reaches the
destination.  Whenever `write_to` returns an error — the gate, a
collaborator failure, a preamble read, tag parsing, the underflow check or
serialization — the destination file content is unchanged; the collaborators
may move the cursor but, being pure readers and skips per their contracts,
preserve the content. -/
theorem write_to_error_leaves_file_unchanged
    (probe : FState → Except Err (Option FileType) × FState)
    (find2 find1 findL : FState → Except Err Unit × FState)
    (ra : Bool → FState → Except Err (ApeTagRef × Nat) × FState)
    (tag : ApeTagRef) (s : FState)
    (Hp : ∀ u, ((probe u).2).content = u.content)
    (H2 : ∀ u, ((find2 u).2).content = u.content)
    (H1 : ∀ u, ((find1 u).2).content = u.content)
    (HL : ∀ u, ((findL u).2).content = u.content)
    (HR : ∀ b u, ((ra b u).2).content = u.content) :
    ∀ e, (writeTo probe find2 find1 findL ra tag s).1 = .error e →
      ((writeTo probe find2 find1 findL ra tag s).2).content = s.content := by
  unfold writeTo
  apply andThen_err (Hp s)
  intro ft s2 h2
  by_cases hft : ft = some FileType.APE ∨ ft = some FileType.MP3
  · rw [if_pos hft]
    apply andThen_err (by rw [H2]; exact h2)
    intro _ s3 h3
    apply andThen_err (by rw [readExact_content]; exact h3)
    intro pre s4 h4
    apply andThen_err (by rw [leading_pres ra HR]; exact h4)
    intro lr s5 h5
    apply andThen_err (by rw [H1]; exact h5)
    intro _ s6 h6
    apply andThen_err (by rw [HL]; exact h6)
    intro _ s7 h7
    apply andThen_err (by rw [trailing_pres ra HR]; exact h7)
    intro tr s8 h8
    intro e he
    cases hc : create_ape_tag (select_final tr.1 tag) with
    | error e2 => simp only [hc]; exact h8
    | ok tb => rw [hc] at he; exact Except.noConfusion he
  · rw [if_neg hft]
    intro e he
    exact h2

/-- Witness for C3: a probe classifying the stream as unsupported makes the
save fail with `UnsupportedTag` and the three-byte file is untouched. -/
theorem write_to_error_leaves_file_unchanged_witness :
    ((writeTo probe_other skip_absent skip_absent skip_absent readApe_trailB callerX
        ⟨[1, 2, 3], 0⟩).2).content = [1, 2, 3] :=
  write_to_error_leaves_file_unchanged probe_other skip_absent skip_absent skip_absent
    readApe_trailB callerX ⟨[1, 2, 3], 0⟩ (fun _ => rfl) (fun _ => rfl) (fun _ => rfl)
    (fun _ => rfl) (fun _ _ => rfl) .UnsupportedTag rfl

/-- Claim C9: when the nonstandard leading range `h0 .. h1` ends at or
before the standard-range or fallback position `r0`, applying the standard
range edit first and then draining the leading range at its original,
pre-edit offsets removes exactly the original leading bytes: the segment
the drain removes from the edited buffer equals the original segment, and
the combined result equals draining first and splicing at shifted offsets
— the later edit does not shift the earlier range. -/
theorem splice_then_drain (buf t : List Nat) (h0 h1 r0 r1 : Nat)
    (hh : h0 ≤ h1) (hhr : h1 ≤ r0) (hrr : r0 ≤ r1) (hlen : r1 ≤ buf.length) :
    ((splice r0 r1 t buf).drop h0).take (h1 - h0) = (buf.drop h0).take (h1 - h0) ∧
    drain h0 h1 (splice r0 r1 t buf) =
      splice (r0 - (h1 - h0)) (r1 - (h1 - h0)) t (drain h0 h1 buf) := by
  have hA : (List.take r0 buf).length = r0 := by
    rw [List.length_take]; omega
  have hAd : (List.drop h0 (List.take r0 buf)).length = r0 - h0 := by
    rw [List.length_drop, hA]
  have edrop : ∀ k, k ≤ r0 →
      (splice r0 r1 t buf).drop k = (buf.take r0).drop k ++ t ++ buf.drop r1 := by
    intro k hk
    rw [splice, List.drop_append_eq_append_drop, List.drop_append_eq_append_drop]
    rw [List.length_append, hA]
    have h01 : k - r0 = 0 := by omega
    have h02 : k - (r0 + t.length) = 0 := by omega
    rw [h01, h02, List.drop_zero, List.drop_zero]
  have e2 : (splice r0 r1 t buf).take h0 = buf.take h0 := by
    rw [splice, List.take_append_eq_append_take, List.take_append_eq_append_take]
    rw [List.length_append, hA]
    have h01 : h0 - r0 = 0 := by omega
    have h02 : h0 - (r0 + t.length) = 0 := by omega
    rw [h01, h02]
    simp only [List.take_zero, List.append_nil]
    rw [List.take_take]
    have hmin : h0 ⊓ r0 = h0 := by omega
    rw [hmin]
  constructor
  · rw [edrop h0 (by omega)]
    rw [List.take_append_eq_append_take, List.take_append_eq_append_take]
    rw [List.length_append, hAd]
    have h11 : h1 - h0 - (r0 - h0) = 0 := by omega
    have h12 : h1 - h0 - (r0 - h0 + t.length) = 0 := by omega
    rw [h11, h12]
    simp only [List.take_zero, List.append_nil]
    rw [List.drop_take, List.take_take]
    have hmin : (h1 - h0) ⊓ (r0 - h0) = h1 - h0 := by omega
    rw [hmin]
  · have e4 : (drain h0 h1 buf).take (r0 - (h1 - h0)) =
        buf.take h0 ++ (buf.take r0).drop h1 := by
      rw [drain, List.take_append_eq_append_take]
      rw [List.length_take]
      have hl0 : h0 ⊓ buf.length = h0 := by omega
      rw [hl0]
      have ht0 : (buf.take h0).take (r0 - (h1 - h0)) = buf.take h0 := by
        rw [List.take_take]
        have : (r0 - (h1 - h0)) ⊓ h0 = h0 := by omega
        rw [this]
      rw [ht0]
      have harg : r0 - (h1 - h0) - h0 = r0 - h1 := by omega
      rw [harg, List.drop_take]
    have e5 : (drain h0 h1 buf).drop (r1 - (h1 - h0)) = buf.drop r1 := by
      rw [drain, List.drop_append_eq_append_drop]
      rw [List.length_take]
      have hl0 : h0 ⊓ buf.length = h0 := by omega
      rw [hl0]
      have hnil : (buf.take h0).drop (r1 - (h1 - h0)) = [] := by
        apply List.drop_eq_nil_of_le
        rw [List.length_take]
        omega
      rw [hnil, List.nil_append, List.drop_drop]
      have : h1 + (r1 - (h1 - h0) - h0) = r1 := by omega
      rw [this]
    calc drain h0 h1 (splice r0 r1 t buf)
        = (splice r0 r1 t buf).take h0 ++ (splice r0 r1 t buf).drop h1 := rfl
      _ = buf.take h0 ++ ((buf.take r0).drop h1 ++ t ++ buf.drop r1) := by
          rw [e2, edrop h1 hhr]
      _ = (buf.take h0 ++ (buf.take r0).drop h1) ++ t ++ buf.drop r1 := by
          simp [List.append_assoc]
      _ = (drain h0 h1 buf).take (r0 - (h1 - h0)) ++ t ++
            (drain h0 h1 buf).drop (r1 - (h1 - h0)) := by
          rw [e4, e5]
      _ = splice (r0 - (h1 - h0)) (r1 - (h1 - h0)) t (drain h0 h1 buf) := rfl

/-- Witness for C9 on a ten-byte buffer: header range 1 to 3, standard range
5 to 8, replacement [99]. -/
theorem splice_then_drain_witness :
    ((splice 5 8 [99] [0, 1, 2, 3, 4, 5, 6, 7, 8, 9]).drop 1).take (3 - 1) =
      (([0, 1, 2, 3, 4, 5, 6, 7, 8, 9] : List Nat).drop 1).take (3 - 1) ∧
    drain 1 3 (splice 5 8 [99] [0, 1, 2, 3, 4, 5, 6, 7, 8, 9]) =
      splice (5 - (3 - 1)) (8 - (3 - 1)) [99] (drain 1 3 [0, 1, 2, 3, 4, 5, 6, 7, 8, 9]) :=
  splice_then_drain [0, 1, 2, 3, 4, 5, 6, 7, 8, 9] [99] 1 3 5 8
    (by decide) (by decide) (by decide) (by decide)

end Lofty
